import Mathlib

/-
Verification of the yajl-sparkling core (src/yajl_sparkling.c): the
parse-side tree builder (stack machine driven by Lexer events), the
generate-side recursive emitter (Writer token stream), the option
translators, and the parse/generate drivers.

The external collaborators (the YAJL Lexer/Writer and the Sparkling host
value capabilities) are not part of the repository; where a claim needs
them they are modelled from the spec and marked as such in doc comments.
JSON text is modelled as the Writer-token / Lexer-event streams it
corresponds to: by the spec's interface contract the Writer renders a
token stream to text and the Lexer scans that text back to the matching
event stream.

Byte strings are modelled as `List Nat`; an IEEE double is carried as its
opaque bit pattern (`Nat`) since no code here computes on floats.
-/

deriving instance DecidableEq for Except

/-- The Sparkling document value (`SpnValue` tagged union), as used by this
module. `nil` is Absent; `str` is a byte string (may contain NULs);
`hashmap` is the host's insertion-ordered map with (per the spec's data
model) string keys; `userinfo` covers the userinfo pointers of which
`null_value` (id 0) is the distinguished ExplicitNull sentinel; `func`
stands for the remaining non-serializable host types that fall into
`generate_recursive`'s `default` branch. Integers and floats are separate
constructors, mirroring `spn_isint`'s discrimination inside the NUMBER
type tag. -/
inductive SpnValue where
  | nil
  | bool (b : Bool)
  | int (n : Int)
  | float (bits : Nat)
  | str (s : List Nat)
  | array (es : List SpnValue)
  | hashmap (ps : List (List Nat × SpnValue))
  | userinfo (id : Nat)
  | func (id : Nat)

/-- The special `null` value: a distinguished userinfo sentinel
(`null_value` in the source, a `SPN_TYPE_WEAKUSERINFO` pointing at
itself). We reserve userinfo id 0 for it; `spn_value_equal` against it is
the id comparison. -/
def null_value : SpnValue := .userinfo 0

def spn_isnil : SpnValue → Bool
  | .nil => true
  | _ => false

def spn_isbool : SpnValue → Bool
  | .bool _ => true
  | _ => false

def spn_isstring : SpnValue → Bool
  | .str _ => true
  | _ => false

def spn_isarray : SpnValue → Bool
  | .array _ => true
  | _ => false

def spn_ishashmap : SpnValue → Bool
  | .hashmap _ => true
  | _ => false

/-- Payload of a boolean value (only used after an `spn_isbool` check). -/
def spn_boolvalue : SpnValue → Bool
  | .bool b => b
  | _ => false

/-- Payload of a string value (only used after an `spn_isstring` check). -/
def spn_stringvalue : SpnValue → List Nat
  | .str s => s
  | _ => []

/-- Modelled from the spec: the host's `spn_array_push` capability —
append one element at the end of the ordered array. -/
def spn_array_push (es : List SpnValue) (v : SpnValue) : List SpnValue :=
  es ++ [v]

/-- Modelled from the spec: the host's `spn_hashmap_set` capability on the
insertion-ordered map. Last write wins in place (iteration order of an
existing key is preserved), a new key is appended (first-insertion order),
and storing Absent (`nil`) under a key is the host's deletion/no-value
marker, so the entry disappears. -/
def spn_hashmap_set (ps : List (List Nat × SpnValue)) (k : List Nat)
    (v : SpnValue) : List (List Nat × SpnValue) :=
  if spn_isnil v then ps.filter (fun p => !(p.1 == k))
  else if ps.any (fun p => p.1 == k) then
    ps.map (fun p => if p.1 == k then (k, v) else p)
  else ps ++ [(k, v)]

/-- Modelled from the spec: the host's `spn_hashmap_get_strkey` capability
— look a string key up, yielding `nil` when the key is not present. -/
def spn_hashmap_get_strkey (ps : List (List Nat × SpnValue))
    (name : List Nat) : SpnValue :=
  match ps.find? (fun p => p.1 == name) with
  | some p => p.2
  | none => .nil

/-- One builder stack frame (`StackNode`): the half-built container plus
the pending-key slot (meaningful for map frames only; `nil` = no pending
key). The `next` pointer is modelled by the enclosing list. -/
structure StackNode where
  key : SpnValue
  value : SpnValue

/-- The parser state: root result, builder stack (head = top), and the
explicit-null mode flag. -/
structure ParserState where
  root : SpnValue
  stack : List StackNode
  explicit_null : Bool

/-- `state_init`: fresh state — `nil` root, empty stack, explicit-null
mode off. -/
def state_init : ParserState :=
  { root := .nil, stack := [], explicit_null := false }

/-- `state_free` releases every still-stacked frame's key and value (in
stack order, key before value). We model it by the list of released
values, which is what the teardown claims are about. -/
def state_free (s : ParserState) : List SpnValue :=
  s.stack.flatMap (fun n => [n.key, n.value])

/-- `state_push`: push a new frame holding `collection` with a `nil`
pending key. The source `assert`s that `collection` is an array or a
hashmap; a failing assertion is modelled as `none`. -/
def state_push (s : ParserState) (collection : SpnValue) :
    Option ParserState :=
  if spn_isarray collection || spn_ishashmap collection then
    some { s with stack := ⟨.nil, collection⟩ :: s.stack }
  else none

/-- `state_pop`: pop the top frame and hand back its container. The
source `assert`s a non-empty stack and a `nil` pending key on the popped
frame; a failing assertion is modelled as `none`. -/
def state_pop (s : ParserState) : Option (SpnValue × ParserState) :=
  match s.stack with
  | [] => none
  | n :: rest =>
    if spn_isnil n.key then some (n.value, { s with stack := rest })
    else none

/-- `set_value`: the single mutation point. Empty stack: the value
becomes the root. Top frame an array: append. Top frame a hashmap: the
source `assert`s the pending key is a string, inserts `(key, value)` and
resets the pending key to `nil`. Any other top-frame container trips the
"cannot add value to non-collection object" assertion. Failing
assertions are modelled as `none`. -/
def set_value (s : ParserState) (v : SpnValue) : Option ParserState :=
  match s.stack with
  | [] => some { s with root := v }
  | n :: rest =>
    match n.value with
    | .array es =>
      some { s with stack := ⟨n.key, .array (spn_array_push es v)⟩ :: rest }
    | .hashmap ps =>
      match n.key with
      | .str k =>
        some { s with stack := ⟨.nil, .hashmap (spn_hashmap_set ps k v)⟩ :: rest }
      | _ => none
    | _ => none

/-- `cb_null`: attach ExplicitNull when explicit-null mode is on, else
Absent; report success (1). -/
def cb_null (s : ParserState) : Option (ParserState × Int) :=
  (set_value s (if s.explicit_null then null_value else .nil)).map (fun t => (t, 1))

/-- `cb_boolean`: attach a boolean; report success. -/
def cb_boolean (s : ParserState) (b : Bool) : Option (ParserState × Int) :=
  (set_value s (.bool b)).map (fun t => (t, 1))

/-- `cb_integer`: attach an integer; report success. -/
def cb_integer (s : ParserState) (n : Int) : Option (ParserState × Int) :=
  (set_value s (.int n)).map (fun t => (t, 1))

/-- `cb_double`: attach a float; report success. -/
def cb_double (s : ParserState) (bits : Nat) : Option (ParserState × Int) :=
  (set_value s (.float bits)).map (fun t => (t, 1))

/-- `cb_string`: attach a string; report success. -/
def cb_string (s : ParserState) (t : List Nat) : Option (ParserState × Int) :=
  (set_value s (.str t)).map (fun t => (t, 1))

/-- `cb_start_map`: push a fresh empty hashmap frame; report success. -/
def cb_start_map (s : ParserState) : Option (ParserState × Int) :=
  (state_push s (.hashmap [])).map (fun t => (t, 1))

/-- `cb_map_key`: the source `assert`s a non-empty stack whose top frame
has a `nil` pending key (the Lexer guarantees the ordering), then stores
the key string into the slot; reports success. Failing assertions are
modelled as `none`. -/
def cb_map_key (s : ParserState) (k : List Nat) : Option (ParserState × Int) :=
  match s.stack with
  | [] => none
  | n :: rest =>
    if spn_isnil n.key then
      some ({ s with stack := ⟨.str k, n.value⟩ :: rest }, 1)
    else none

/-- `cb_end_map`: pop the finished map and attach it via `set_value`;
report success. -/
def cb_end_map (s : ParserState) : Option (ParserState × Int) :=
  (state_pop s).bind (fun r => (set_value r.2 r.1).map (fun t => (t, 1)))

/-- `cb_start_array`: push a fresh empty array frame; report success. -/
def cb_start_array (s : ParserState) : Option (ParserState × Int) :=
  (state_push s (.array [])).map (fun t => (t, 1))

/-- `cb_end_array`: pop the finished array and attach it; report
success. -/
def cb_end_array (s : ParserState) : Option (ParserState × Int) :=
  (state_pop s).bind (fun r => (set_value r.2 r.1).map (fun t => (t, 1)))

/-- The callback table handed to the Lexer (`yajl_callbacks`). The
`yajl_number` slot is NULL in the source (so the Lexer delivers integers
and doubles separately); it is modelled as `none`. -/
structure YajlCallbacks where
  yajl_null : ParserState → Option (ParserState × Int)
  yajl_boolean : ParserState → Bool → Option (ParserState × Int)
  yajl_integer : ParserState → Int → Option (ParserState × Int)
  yajl_double : ParserState → Nat → Option (ParserState × Int)
  yajl_number : Option (ParserState → List Nat → Option (ParserState × Int))
  yajl_string : ParserState → List Nat → Option (ParserState × Int)
  yajl_start_map : ParserState → Option (ParserState × Int)
  yajl_map_key : ParserState → List Nat → Option (ParserState × Int)
  yajl_end_map : ParserState → Option (ParserState × Int)
  yajl_start_array : ParserState → Option (ParserState × Int)
  yajl_end_array : ParserState → Option (ParserState × Int)

def parser_callbacks : YajlCallbacks :=
  { yajl_null := cb_null
  , yajl_boolean := cb_boolean
  , yajl_integer := cb_integer
  , yajl_double := cb_double
  , yajl_number := none
  , yajl_string := cb_string
  , yajl_start_map := cb_start_map
  , yajl_map_key := cb_map_key
  , yajl_end_map := cb_end_map
  , yajl_start_array := cb_start_array
  , yajl_end_array := cb_end_array }

/-- One structural event delivered by the Lexer (spec §6): the argument
of exactly one callback invocation. -/
inductive LexEv where
  | null
  | bool (b : Bool)
  | int (n : Int)
  | float (bits : Nat)
  | str (s : List Nat)
  | startMap
  | key (k : List Nat)
  | endMap
  | startArr
  | endArr
deriving DecidableEq

/-- Dispatch one Lexer event to the registered callback (dropping the
success code, which every callback sets to 1). -/
def applyEv (e : LexEv) (s : ParserState) : Option ParserState :=
  match e with
  | .null => (cb_null s).map Prod.fst
  | .bool b => (cb_boolean s b).map Prod.fst
  | .int n => (cb_integer s n).map Prod.fst
  | .float bits => (cb_double s bits).map Prod.fst
  | .str t => (cb_string s t).map Prod.fst
  | .startMap => (cb_start_map s).map Prod.fst
  | .key k => (cb_map_key s k).map Prod.fst
  | .endMap => (cb_end_map s).map Prod.fst
  | .startArr => (cb_start_array s).map Prod.fst
  | .endArr => (cb_end_array s).map Prod.fst

/-- Run the builder over a Lexer event sequence. -/
def process : List LexEv → ParserState → Option ParserState
  | [], s => some s
  | e :: es, s => (applyEv e s).bind (process es)

/-- Run the builder from a fresh state with the given explicit-null mode
and read off the root result, as `json_parse` does on the success path. -/
def runBuilder (mode : Bool) (evs : List LexEv) : Option SpnValue :=
  (process evs { state_init with explicit_null := mode }).map ParserState.root

/-- One Writer token (spec §6): the argument of exactly one
`yajl_gen_*` emission call made by the recursive emitter. -/
inductive GTok where
  | null
  | bool (b : Bool)
  | int (n : Int)
  | float (bits : Nat)
  | str (s : List Nat)
  | arrOpen
  | arrClose
  | mapOpen
  | mapClose
deriving DecidableEq

mutual

/-- `generate_recursive`: depth-first walk of a document value,
instructing the Writer token by token. `nil` and the ExplicitNull
sentinel emit `null`; a userinfo value other than the sentinel fails with
"found non-serializable value"; a value of any other host type (the
`default` branch) fails with "found value of unknown type". The first
failure aborts the walk (`Except` short-circuit), mirroring the
`RETURN_IF_FAIL` / early-`return` structure of the source. -/
def generate_recursive : SpnValue → Except String (List GTok)
  | .nil => .ok [.null]
  | .bool b => .ok [.bool b]
  | .int n => .ok [.int n]
  | .float bits => .ok [.float bits]
  | .str s => .ok [.str s]
  | .array es => do pure (.arrOpen :: (← genList es) ++ [.arrClose])
  | .hashmap ps => do pure (.mapOpen :: (← genPairs ps) ++ [.mapClose])
  | .userinfo id => if id = 0 then .ok [.null] else .error "found non-serializable value"
  | .func _ => .error "found value of unknown type"

/-- Loop body of the array case: emit every element in order, aborting
at the first failing element. -/
def genList : List SpnValue → Except String (List GTok)
  | [] => .ok []
  | e :: es => do pure ((← generate_recursive e) ++ (← genList es))

/-- Loop body of the hashmap case: for every pair in iteration order,
emit the key, then the value, aborting at the first failure. The source
emits the key by recursing on it; with the map's string keys that
recursion is exactly the single token `.str k`, which is written inline
here so the recursion stays structural. -/
def genPairs : List (List Nat × SpnValue) → Except String (List GTok)
  | [] => .ok []
  | (k, v) :: ps => do
      pure (.str k :: ((← generate_recursive v) ++ (← genPairs ps)))

end

/-- `json_generate`: run the emitter; on success hand the Writer's
buffered output (modelled by its token stream) to the caller, on error
surface that error and no output. The formatting options configured by
`config_gen` only change how the Writer renders the tokens to text,
never the token sequence, so they do not appear here. -/
def json_generate (v : SpnValue) : Except String (List GTok) :=
  do pure (← generate_recursive v)

/-- One run of the external Lexer over one input (spec §6): the events
it delivered, whether scanning the fed bytes succeeded
(`yajl_parse`), whether the terminal completeness check succeeded
(`yajl_complete_parse` — fails when unconsumed non-whitespace trailing
input remains), and the human-readable message with position context
that `yajl_get_error` would produce on failure. -/
structure LexRun where
  evs : List LexEv
  parse_ok : Bool
  complete_ok : Bool
  errmsg : String

/-- `json_parse`, given the Lexer's run and the configured explicit-null
mode: drive every event into the builder, then require both Lexer
statuses to be ok. Success returns the root (releasing nothing — the
stack is empty then); failure releases the root and, during teardown,
every still-stacked frame's key and value, and returns the error built
from the Lexer's message (`error_message_to_spn_context` formats it as
"error parsing JSON: %s"). The pair's second component lists the
released values. A `none` from the builder would be a failed source
assertion, which the Lexer's ordering contract rules out. -/
def json_parse_model (L : LexRun) (mode : Bool) :
    Except String SpnValue × List SpnValue :=
  match process L.evs { state_init with explicit_null := mode } with
  | none => (.error "builder invariant violated", [])
  | some st =>
    if L.parse_ok && L.complete_ok then
      (.ok st.root, state_free st)
    else
      (.error ("error parsing JSON: " ++ L.errmsg), st.root :: state_free st)

/-- ASCII whitespace skipper of the modelled Lexer. -/
def skipWs : List Nat → List Nat
  | [] => []
  | c :: rest =>
    if c = 32 || c = 9 || c = 10 || c = 13 then skipWs rest else c :: rest

def isDigitByte (c : Nat) : Bool :=
  48 ≤ c && c ≤ 57

/-- Digit-run scanner of the modelled Lexer: accumulate a decimal
integer, stopping at the first non-digit. -/
def lexDigits : List Nat → Int → Int × List Nat
  | [], acc => (acc, [])
  | c :: rest, acc =>
    if isDigitByte c then lexDigits rest (acc * 10 + (c - 48 : Nat))
    else (acc, c :: rest)

/-- Modelled from the spec: the external Lexer's scan of one JSON value,
restricted to the literals the concrete claims feed it (`null`, `true`,
`false`, and unsigned decimal integers). Yields the delivered events and
the unconsumed rest of the input; `none` is a syntax error. -/
def lexOne (input : List Nat) : Option (List LexEv × List Nat) :=
  match skipWs input with
  | 110 :: 117 :: 108 :: 108 :: rest => some ([.null], rest)
  | 116 :: 114 :: 117 :: 101 :: rest => some ([.bool true], rest)
  | 102 :: 97 :: 108 :: 115 :: 101 :: rest => some ([.bool false], rest)
  | c :: rest =>
    if isDigitByte c then
      let r := lexDigits rest ((c - 48 : Nat) : Int)
      some ([.int r.1], r.2)
    else none
  | [] => none

/-- Modelled from the spec: one full run of the external Lexer — scan
one value, then the terminal completeness check, which fails exactly
when non-whitespace input remains unconsumed. -/
def yajlRun (input : List Nat) : LexRun :=
  match lexOne input with
  | some r =>
    if (skipWs r.2).isEmpty then
      { evs := r.1, parse_ok := true, complete_ok := true, errmsg := "" }
    else
      { evs := r.1, parse_ok := true, complete_ok := false
      , errmsg := "trailing garbage" }
  | none => { evs := [], parse_ok := false, complete_ok := false
            , errmsg := "lexical error" }

/-- Byte string "comment". -/
def key_comment : List Nat := [99, 111, 109, 109, 101, 110, 116]

/-- Byte string "parse_null". -/
def key_parse_null : List Nat := [112, 97, 114, 115, 101, 95, 110, 117, 108, 108]

/-- Byte string "beautify". -/
def key_beautify : List Nat := [98, 101, 97, 117, 116, 105, 102, 121]

/-- Byte string "indent". -/
def key_indent : List Nat := [105, 110, 100, 101, 110, 116]

/-- Byte string "escape_slash". -/
def key_escape_slash : List Nat := [101, 115, 99, 97, 112, 101, 95, 115, 108, 97, 115, 104]

/-- The Lexer behavior toggles `config_parser` can set. -/
structure YajlParserOpts where
  allow_comments : Bool

/-- `parser_set_bool_option`: look the named option up in the config map
and forward it to `yajl_config` only when it is a boolean; otherwise the
current (default) setting stays. -/
def parser_set_bool_option (cur : Bool)
    (config : List (List Nat × SpnValue)) (name : List Nat) : Bool :=
  if spn_isbool (spn_hashmap_get_strkey config name) then
    spn_boolvalue (spn_hashmap_get_strkey config name)
  else cur

/-- `state_set_bool_option`: same lookup, targeting a builder flag. -/
def state_set_bool_option (cur : Bool)
    (config : List (List Nat × SpnValue)) (name : List Nat) : Bool :=
  if spn_isbool (spn_hashmap_get_strkey config name) then
    spn_boolvalue (spn_hashmap_get_strkey config name)
  else cur

/-- `config_parser`: translate the config map into the Lexer's
comment-tolerance toggle and the builder's explicit-null flag (both
default off). Only the keys "comment" and "parse_null" are read. -/
def config_parser_side (config : List (List Nat × SpnValue)) :
    YajlParserOpts × Bool :=
  ( { allow_comments := parser_set_bool_option false config key_comment }
  , state_set_bool_option false config key_parse_null )

/-- The Writer formatting toggles `config_gen` can set. -/
structure YajlGenOpts where
  beautify : Bool
  indent_string : List Nat
  escape_solidus : Bool

/-- The Writer's defaults: no beautification, four-space indent, no
solidus escaping. -/
def yajl_gen_default_opts : YajlGenOpts :=
  { beautify := false, indent_string := [32, 32, 32, 32], escape_solidus := false }

/-- `gen_set_bool_option`: forward a config entry to `yajl_gen_config`
only when it is a boolean. -/
def gen_set_bool_option (cur : Bool)
    (config : List (List Nat × SpnValue)) (name : List Nat) : Bool :=
  if spn_isbool (spn_hashmap_get_strkey config name) then
    spn_boolvalue (spn_hashmap_get_strkey config name)
  else cur

/-- `gen_set_string_option`: forward a config entry only when it is a
string. -/
def gen_set_string_option (cur : List Nat)
    (config : List (List Nat × SpnValue)) (name : List Nat) : List Nat :=
  if spn_isstring (spn_hashmap_get_strkey config name) then
    spn_stringvalue (spn_hashmap_get_strkey config name)
  else cur

/-- `config_gen`: translate the config map into the Writer's formatting
toggles. Only the keys "beautify", "indent" and "escape_slash" are
read. -/
def config_gen (config : List (List Nat × SpnValue)) : YajlGenOpts :=
  { beautify :=
      gen_set_bool_option yajl_gen_default_opts.beautify config key_beautify
  , indent_string :=
      gen_set_string_option yajl_gen_default_opts.indent_string config key_indent
  , escape_solidus :=
      gen_set_bool_option yajl_gen_default_opts.escape_solidus config key_escape_slash }

/-- `json_parse` over raw text: configure from the optional config map
(explicit-null mode defaults to off), run the modelled Lexer over the
input, and hand its run to the driver. -/
def json_parse_text (input : List Nat)
    (config : Option (List (List Nat × SpnValue))) :
    Except String SpnValue × List SpnValue :=
  let mode := match config with
    | some cfg => (config_parser_side cfg).2
    | none => false
  json_parse_model (yajlRun input) mode

mutual

/-- The serializable values: everything `generate_recursive` walks
without hitting the non-serializable or unknown-type branch — `nil`,
booleans, numbers, strings, the ExplicitNull sentinel, and arrays and
maps of such values. -/
def serializableV : SpnValue → Bool
  | .nil => true
  | .bool _ => true
  | .int _ => true
  | .float _ => true
  | .str _ => true
  | .array es => serializableL es
  | .hashmap ps => serializableP ps
  | .userinfo id => id = 0
  | .func _ => false

def serializableL : List SpnValue → Bool
  | [] => true
  | e :: es => serializableV e && serializableL es

def serializableP : List (List Nat × SpnValue) → Bool
  | [] => true
  | (_, v) :: ps => serializableV v && serializableP ps

end

/-- Keys are pairwise distinct in one map level (the host map's
invariant: keys unique within one map). -/
def nodupKeys : List (List Nat × SpnValue) → Bool
  | [] => true
  | (k, _) :: ps => !(ps.any (fun q => q.1 == k)) && nodupKeys ps

mutual

/-- Every map nested anywhere in the value has pairwise-distinct keys —
automatically true of any value the host's map capability built. -/
def uniqKeysV : SpnValue → Bool
  | .array es => uniqKeysL es
  | .hashmap ps => nodupKeys ps && uniqKeysP ps
  | _ => true

def uniqKeysL : List SpnValue → Bool
  | [] => true
  | e :: es => uniqKeysV e && uniqKeysL es

def uniqKeysP : List (List Nat × SpnValue) → Bool
  | [] => true
  | (_, v) :: ps => uniqKeysV v && uniqKeysP ps

end

mutual

/-- The Absent/ExplicitNull collapse a generate-then-parse round trip
performs. Both Absent and the sentinel print as `null`; re-parsing turns
every `null` into Absent when explicit-null mode is off and into the
sentinel when it is on. A map entry whose collapsed value is Absent
disappears, because storing Absent is the host map's deletion marker. On
every other serializable value the collapse is the identity. -/
def collapse (m : Bool) : SpnValue → SpnValue
  | .nil => if m then null_value else .nil
  | .bool b => .bool b
  | .int n => .int n
  | .float bits => .float bits
  | .str s => .str s
  | .array es => .array (collapseL m es)
  | .hashmap ps => .hashmap (collapseP m ps)
  | .userinfo id => if id = 0 then (if m then null_value else .nil) else .userinfo id
  | .func id => .func id

def collapseL (m : Bool) : List SpnValue → List SpnValue
  | [] => []
  | e :: es => collapse m e :: collapseL m es

def collapseP (m : Bool) : List (List Nat × SpnValue) →
    List (List Nat × SpnValue)
  | [] => []
  | (k, v) :: ps =>
    if spn_isnil (collapse m v) then collapseP m ps
    else (k, collapse m v) :: collapseP m ps

end

mutual

/-- Modelled from the spec: the composition of the external Writer and
Lexer. The Writer renders the token stream `generate_recursive` emits to
JSON text; scanning that text back, the Lexer delivers the matching
event stream — case for case the same walk as `generate_recursive`,
except that a string emitted in key position comes back as a `key`
event. -/
def eventsOf : SpnValue → Except String (List LexEv)
  | .nil => .ok [.null]
  | .bool b => .ok [.bool b]
  | .int n => .ok [.int n]
  | .float bits => .ok [.float bits]
  | .str s => .ok [.str s]
  | .array es => do pure (.startArr :: (← eventsOfL es) ++ [.endArr])
  | .hashmap ps => do pure (.startMap :: (← eventsOfP ps) ++ [.endMap])
  | .userinfo id => if id = 0 then .ok [.null] else .error "found non-serializable value"
  | .func _ => .error "found value of unknown type"

def eventsOfL : List SpnValue → Except String (List LexEv)
  | [] => .ok []
  | e :: es => do pure ((← eventsOf e) ++ (← eventsOfL es))

def eventsOfP : List (List Nat × SpnValue) → Except String (List LexEv)
  | [] => .ok []
  | (k, v) :: ps => do
      pure (.key k :: ((← eventsOf v) ++ (← eventsOfP ps)))

end

/-- The per-value token streams of a map's entries: `some tss` when the
emitter succeeds on every stored value, with `tss` listing each value's
tokens in iteration order. Specification vocabulary for the map-emission
theorem. -/
def valueTokens : List (List Nat × SpnValue) → Option (List (List GTok))
  | [] => some []
  | (_, v) :: ps =>
    match generate_recursive v, valueTokens ps with
    | .ok ts, some tss => some (ts :: tss)
    | _, _ => none

/-- Unfolding of `Except.bind` on a success. -/
theorem except_bind_ok {α β : Type} (a : α) (f : α → Except String β) :
    Except.bind (Except.ok a) f = f a := rfl

/-- Unfolding of `Except.bind` on an error. -/
theorem except_bind_error {α β : Type} (e : String) (f : α → Except String β) :
    Except.bind (Except.error e) f = Except.error e := rfl

theorem eventsOf_array (es : List SpnValue) :
    eventsOf (.array es) =
      Except.bind (eventsOfL es)
        (fun ts => Except.ok (.startArr :: ts ++ [.endArr])) := rfl

theorem eventsOf_hashmap (ps : List (List Nat × SpnValue)) :
    eventsOf (.hashmap ps) =
      Except.bind (eventsOfP ps)
        (fun ts => Except.ok (.startMap :: ts ++ [.endMap])) := rfl

theorem eventsOfL_cons (e : SpnValue) (es : List SpnValue) :
    eventsOfL (e :: es) =
      Except.bind (eventsOf e) (fun a =>
        Except.bind (eventsOfL es) (fun b => Except.ok (a ++ b))) := rfl

theorem eventsOfP_cons (k : List Nat) (v : SpnValue)
    (ps : List (List Nat × SpnValue)) :
    eventsOfP ((k, v) :: ps) =
      Except.bind (eventsOf v) (fun a =>
        Except.bind (eventsOfP ps) (fun b => Except.ok (.key k :: (a ++ b)))) := rfl

theorem collapseP_cons (m : Bool) (k : List Nat) (v : SpnValue)
    (ps : List (List Nat × SpnValue)) :
    collapseP m ((k, v) :: ps) =
      if spn_isnil (collapse m v) then collapseP m ps
      else (k, collapse m v) :: collapseP m ps := rfl

theorem nodupKeys_cons (k : List Nat) (v : SpnValue)
    (ps : List (List Nat × SpnValue)) :
    nodupKeys ((k, v) :: ps) =
      (!(ps.any (fun q => q.1 == k)) && nodupKeys ps) := rfl

/-- `process` distributes over event-list concatenation. -/
theorem process_append (a b : List LexEv) (s : ParserState) :
    process (a ++ b) s = (process a s).bind (process b) := by
  induction a generalizing s with
  | nil => rfl
  | cons e a ih =>
    show (applyEv e s).bind (process (a ++ b)) =
      ((applyEv e s).bind (process a)).bind (process b)
    cases applyEv e s with
    | none => rfl
    | some t => exact ih t

/-- Attaching a completed value and then processing no further events is
exactly `set_value`. -/
theorem attach_step (s : ParserState) (x : SpnValue) :
    (((set_value s x).map (fun t => (t, (1 : Int)))).map Prod.fst).bind
      (process []) = set_value s x := by
  cases set_value s x <;> rfl

/-- Inserting a fresh key: when the stored value is Absent the map is
unchanged (deletion of an absent key). -/
theorem spn_hashmap_set_fresh_nil (ps : List (List Nat × SpnValue))
    (k : List Nat) (v : SpnValue)
    (h : ps.any (fun p => p.1 == k) = false) (hv : spn_isnil v = true) :
    spn_hashmap_set ps k v = ps := by
  unfold spn_hashmap_set
  rw [hv, if_pos rfl]
  refine List.filter_eq_self.mpr (fun a ha => ?_)
  have := List.any_eq_false.mp h a ha
  simp only [Bool.not_eq_true'] at this ⊢
  simpa using this

/-- Inserting a fresh key with a non-Absent value appends the pair,
preserving first-insertion order. -/
theorem spn_hashmap_set_fresh_notnil (ps : List (List Nat × SpnValue))
    (k : List Nat) (v : SpnValue)
    (h : ps.any (fun p => p.1 == k) = false) (hv : spn_isnil v = false) :
    spn_hashmap_set ps k v = ps ++ [(k, v)] := by
  unfold spn_hashmap_set
  rw [hv, h]
  rfl

mutual

/-- Builder correctness, value form: feeding the event stream of a
serializable value `v` (with globally unique map keys) into the builder
from any state is exactly one `set_value` of the collapsed value. -/
theorem goV (v : SpnValue) (evs : List LexEv) (s : ParserState)
    (hser : serializableV v = true) (huniq : uniqKeysV v = true)
    (hev : eventsOf v = .ok evs) :
    process evs s = set_value s (collapse s.explicit_null v) := by
  cases v with
  | nil => cases hev; exact attach_step s _
  | bool b => cases hev; exact attach_step s _
  | int n => cases hev; exact attach_step s _
  | float bits => cases hev; exact attach_step s _
  | str t => cases hev; exact attach_step s _
  | userinfo id =>
    have h0 : id = 0 := of_decide_eq_true hser
    subst h0
    cases hev
    exact attach_step s _
  | func id => exact absurd hser (by simp [serializableV])
  | array es =>
    rw [eventsOf_array] at hev
    cases hL : eventsOfL es with
    | error msg => rw [hL, except_bind_error] at hev; cases hev
    | ok inner =>
      rw [hL, except_bind_ok] at hev
      cases hev
      obtain ⟨root, stk, m⟩ := s
      show (applyEv .startArr ⟨root, stk, m⟩).bind
        (process (inner ++ [.endArr])) = _
      have h1 : applyEv .startArr ⟨root, stk, m⟩ =
          some ⟨root, ⟨.nil, .array []⟩ :: stk, m⟩ := rfl
      rw [h1]
      show process (inner ++ [.endArr]) ⟨root, ⟨.nil, .array []⟩ :: stk, m⟩ = _
      rw [process_append]
      have hser' : serializableL es = true := hser
      have huniq' : uniqKeysL es = true := huniq
      rw [goL es inner hser' huniq' hL [] root stk m]
      show process [.endArr]
        ⟨root, ⟨.nil, .array ([] ++ collapseL m es)⟩ :: stk, m⟩ = _
      rw [List.nil_append]
      exact attach_step ⟨root, stk, m⟩ _
  | hashmap ps =>
    rw [eventsOf_hashmap] at hev
    cases hP : eventsOfP ps with
    | error msg => rw [hP, except_bind_error] at hev; cases hev
    | ok inner =>
      rw [hP, except_bind_ok] at hev
      cases hev
      obtain ⟨root, stk, m⟩ := s
      show (applyEv .startMap ⟨root, stk, m⟩).bind
        (process (inner ++ [.endMap])) = _
      have h1 : applyEv .startMap ⟨root, stk, m⟩ =
          some ⟨root, ⟨.nil, .hashmap []⟩ :: stk, m⟩ := rfl
      rw [h1]
      show process (inner ++ [.endMap]) ⟨root, ⟨.nil, .hashmap []⟩ :: stk, m⟩ = _
      rw [process_append]
      have hser' : serializableP ps = true := hser
      obtain ⟨hnd, huP⟩ := Bool.and_eq_true_iff.mp huniq
      rw [goP ps inner hser' huP hnd hP [] root stk m (fun k v _ => rfl)]
      show process [.endMap]
        ⟨root, ⟨.nil, .hashmap ([] ++ collapseP m ps)⟩ :: stk, m⟩ = _
      rw [List.nil_append]
      exact attach_step ⟨root, stk, m⟩ _

/-- Builder correctness, array-body form: the events of the elements,
fed to a state whose top frame is an array holding `acc`, append the
collapsed elements to `acc` in order. -/
theorem goL (es : List SpnValue) (inner : List LexEv)
    (hser : serializableL es = true) (huniq : uniqKeysL es = true)
    (hev : eventsOfL es = .ok inner)
    (acc : List SpnValue) (root : SpnValue) (stk : List StackNode) (m : Bool) :
    process inner ⟨root, ⟨.nil, .array acc⟩ :: stk, m⟩ =
      some ⟨root, ⟨.nil, .array (acc ++ collapseL m es)⟩ :: stk, m⟩ := by
  cases es with
  | nil =>
    cases hev
    show some _ = _
    rw [show collapseL m [] = [] from rfl, List.append_nil]
  | cons e es2 =>
    rw [eventsOfL_cons] at hev
    cases hE : eventsOf e with
    | error msg => rw [hE, except_bind_error] at hev; cases hev
    | ok evsE =>
      rw [hE, except_bind_ok] at hev
      cases hL2 : eventsOfL es2 with
      | error msg => rw [hL2, except_bind_error] at hev; cases hev
      | ok inner2 =>
        rw [hL2, except_bind_ok] at hev
        cases hev
        obtain ⟨hserE, hserL⟩ := Bool.and_eq_true_iff.mp hser
        obtain ⟨huniqE, huniqL⟩ := Bool.and_eq_true_iff.mp huniq
        rw [process_append]
        rw [goV e evsE ⟨root, ⟨.nil, .array acc⟩ :: stk, m⟩ hserE huniqE hE]
        show process inner2
          ⟨root, ⟨.nil, .array (acc ++ [collapse m e])⟩ :: stk, m⟩ = _
        rw [goL es2 inner2 hserL huniqL hL2 (acc ++ [collapse m e]) root stk m]
        rw [List.append_assoc]
        rfl

/-- Builder correctness, map-body form: the events of the pairs, fed to
a state whose top frame is a map holding `acc` with no pending key,
extend `acc` by the collapsed pairs in iteration order (entries whose
collapsed value is Absent disappearing). -/
theorem goP (ps : List (List Nat × SpnValue)) (inner : List LexEv)
    (hser : serializableP ps = true) (huniq : uniqKeysP ps = true)
    (hnd : nodupKeys ps = true)
    (hev : eventsOfP ps = .ok inner)
    (acc : List (List Nat × SpnValue)) (root : SpnValue)
    (stk : List StackNode) (m : Bool)
    (hfresh : ∀ k v, (k, v) ∈ ps → acc.any (fun p => p.1 == k) = false) :
    process inner ⟨root, ⟨.nil, .hashmap acc⟩ :: stk, m⟩ =
      some ⟨root, ⟨.nil, .hashmap (acc ++ collapseP m ps)⟩ :: stk, m⟩ := by
  cases ps with
  | nil =>
    cases hev
    show some _ = _
    rw [show collapseP m [] = [] from rfl, List.append_nil]
  | cons kv ps2 =>
    obtain ⟨k, v⟩ := kv
    rw [eventsOfP_cons] at hev
    cases hV : eventsOf v with
    | error msg => rw [hV, except_bind_error] at hev; cases hev
    | ok evsV =>
      rw [hV, except_bind_ok] at hev
      cases hP2 : eventsOfP ps2 with
      | error msg => rw [hP2, except_bind_error] at hev; cases hev
      | ok inner2 =>
        rw [hP2, except_bind_ok] at hev
        cases hev
        obtain ⟨hserV, hserP⟩ := Bool.and_eq_true_iff.mp hser
        obtain ⟨huniqV, huniqP⟩ := Bool.and_eq_true_iff.mp huniq
        obtain ⟨hndK, hndP⟩ := Bool.and_eq_true_iff.mp hnd
        have hndK' : ps2.any (fun q => q.1 == k) = false :=
          by simpa using hndK
        show (applyEv (.key k) ⟨root, ⟨.nil, .hashmap acc⟩ :: stk, m⟩).bind
          (process (evsV ++ inner2)) = _
        have hkey : applyEv (.key k) ⟨root, ⟨.nil, .hashmap acc⟩ :: stk, m⟩ =
            some ⟨root, ⟨.str k, .hashmap acc⟩ :: stk, m⟩ := rfl
        rw [hkey]
        show process (evsV ++ inner2)
          ⟨root, ⟨.str k, .hashmap acc⟩ :: stk, m⟩ = _
        rw [process_append]
        rw [goV v evsV ⟨root, ⟨.str k, .hashmap acc⟩ :: stk, m⟩ hserV huniqV hV]
        show process inner2
          ⟨root, ⟨.nil, .hashmap (spn_hashmap_set acc k (collapse m v))⟩ :: stk, m⟩ = _
        have hacc : acc.any (fun p => p.1 == k) = false :=
          hfresh k v (List.mem_cons_self _ _)
        cases hnilv : spn_isnil (collapse m v) with
        | true =>
          rw [spn_hashmap_set_fresh_nil acc k _ hacc hnilv]
          rw [goP ps2 inner2 hserP huniqP hndP hP2 acc root stk m
            (fun k' v' h' => hfresh k' v' (List.mem_cons_of_mem _ h'))]
          rw [collapseP_cons, hnilv]
          rfl
        | false =>
          rw [spn_hashmap_set_fresh_notnil acc k _ hacc hnilv]
          have hfresh2 : ∀ k' v', (k', v') ∈ ps2 →
              (acc ++ [(k, collapse m v)]).any (fun p => p.1 == k') = false := by
            intro k' v' h'
            rw [List.any_append]
            have h1 := hfresh k' v' (List.mem_cons_of_mem _ h')
            have hk'k : (k' == k) = false := by
              have := List.any_eq_false.mp hndK' (k', v') h'
              simpa using this
            have hkk' : (k == k') = false :=
              beq_eq_false_iff_ne.mpr (Ne.symm (beq_eq_false_iff_ne.mp hk'k))
            simp [h1, hkk']
          rw [goP ps2 inner2 hserP huniqP hndP hP2
            (acc ++ [(k, collapse m v)]) root stk m hfresh2]
          rw [collapseP_cons, hnilv]
          rw [List.append_assoc]
          rfl

end

theorem gen_userinfo (id : Nat) :
    generate_recursive (.userinfo id) =
      if id = 0 then .ok [.null] else .error "found non-serializable value" := rfl

theorem gen_array (es : List SpnValue) :
    generate_recursive (.array es) =
      Except.bind (genList es)
        (fun ts => Except.ok (.arrOpen :: ts ++ [.arrClose])) := rfl

theorem gen_hashmap (ps : List (List Nat × SpnValue)) :
    generate_recursive (.hashmap ps) =
      Except.bind (genPairs ps)
        (fun ts => Except.ok (.mapOpen :: ts ++ [.mapClose])) := rfl

theorem genList_cons (e : SpnValue) (es : List SpnValue) :
    genList (e :: es) =
      Except.bind (generate_recursive e) (fun a =>
        Except.bind (genList es) (fun b => Except.ok (a ++ b))) := rfl

theorem genPairs_cons (k : List Nat) (v : SpnValue)
    (ps : List (List Nat × SpnValue)) :
    genPairs ((k, v) :: ps) =
      Except.bind (generate_recursive v) (fun a =>
        Except.bind (genPairs ps) (fun b => Except.ok (.str k :: (a ++ b)))) := rfl

theorem eventsOf_userinfo (id : Nat) :
    eventsOf (.userinfo id) =
      if id = 0 then .ok [.null] else .error "found non-serializable value" := rfl

mutual

/-- On a serializable value the modelled Writer-Lexer composition
delivers an event stream. -/
theorem evOkV (v : SpnValue) (h : serializableV v = true) :
    ∃ evs, eventsOf v = .ok evs := by
  cases v with
  | nil => exact ⟨_, rfl⟩
  | bool b => exact ⟨_, rfl⟩
  | int n => exact ⟨_, rfl⟩
  | float bits => exact ⟨_, rfl⟩
  | str t => exact ⟨_, rfl⟩
  | userinfo id =>
    have h0 : id = 0 := of_decide_eq_true h
    subst h0
    exact ⟨_, rfl⟩
  | func id => exact absurd h (by simp [serializableV])
  | array es =>
    obtain ⟨inner, hL⟩ := evOkL es h
    exact ⟨_, by rw [eventsOf_array, hL, except_bind_ok]⟩
  | hashmap ps =>
    obtain ⟨inner, hP⟩ := evOkP ps h
    exact ⟨_, by rw [eventsOf_hashmap, hP, except_bind_ok]⟩

theorem evOkL (es : List SpnValue) (h : serializableL es = true) :
    ∃ evs, eventsOfL es = .ok evs := by
  cases es with
  | nil => exact ⟨_, rfl⟩
  | cons e es2 =>
    obtain ⟨h1, h2⟩ := Bool.and_eq_true_iff.mp h
    obtain ⟨a, ha⟩ := evOkV e h1
    obtain ⟨b, hb⟩ := evOkL es2 h2
    exact ⟨_, by rw [eventsOfL_cons, ha, except_bind_ok, hb, except_bind_ok]⟩

theorem evOkP (ps : List (List Nat × SpnValue)) (h : serializableP ps = true) :
    ∃ evs, eventsOfP ps = .ok evs := by
  cases ps with
  | nil => exact ⟨_, rfl⟩
  | cons kv ps2 =>
    obtain ⟨k, v⟩ := kv
    obtain ⟨h1, h2⟩ := Bool.and_eq_true_iff.mp h
    obtain ⟨a, ha⟩ := evOkV v h1
    obtain ⟨b, hb⟩ := evOkP ps2 h2
    exact ⟨_, by rw [eventsOfP_cons, ha, except_bind_ok, hb, except_bind_ok]⟩

end

mutual

/-- On a serializable value the emitter succeeds. -/
theorem genOkV (v : SpnValue) (h : serializableV v = true) :
    ∃ ts, generate_recursive v = .ok ts := by
  cases v with
  | nil => exact ⟨_, rfl⟩
  | bool b => exact ⟨_, rfl⟩
  | int n => exact ⟨_, rfl⟩
  | float bits => exact ⟨_, rfl⟩
  | str t => exact ⟨_, rfl⟩
  | userinfo id =>
    have h0 : id = 0 := of_decide_eq_true h
    subst h0
    exact ⟨_, rfl⟩
  | func id => exact absurd h (by simp [serializableV])
  | array es =>
    obtain ⟨inner, hL⟩ := genOkL es h
    exact ⟨_, by rw [gen_array, hL, except_bind_ok]⟩
  | hashmap ps =>
    obtain ⟨inner, hP⟩ := genOkP ps h
    exact ⟨_, by rw [gen_hashmap, hP, except_bind_ok]⟩

theorem genOkL (es : List SpnValue) (h : serializableL es = true) :
    ∃ ts, genList es = .ok ts := by
  cases es with
  | nil => exact ⟨_, rfl⟩
  | cons e es2 =>
    obtain ⟨h1, h2⟩ := Bool.and_eq_true_iff.mp h
    obtain ⟨a, ha⟩ := genOkV e h1
    obtain ⟨b, hb⟩ := genOkL es2 h2
    exact ⟨_, by rw [genList_cons, ha, except_bind_ok, hb, except_bind_ok]⟩

theorem genOkP (ps : List (List Nat × SpnValue)) (h : serializableP ps = true) :
    ∃ ts, genPairs ps = .ok ts := by
  cases ps with
  | nil => exact ⟨_, rfl⟩
  | cons kv ps2 =>
    obtain ⟨k, v⟩ := kv
    obtain ⟨h1, h2⟩ := Bool.and_eq_true_iff.mp h
    obtain ⟨a, ha⟩ := genOkV v h1
    obtain ⟨b, hb⟩ := genOkP ps2 h2
    exact ⟨_, by rw [genPairs_cons, ha, except_bind_ok, hb, except_bind_ok]⟩

end

mutual

/-- On a value that is not serializable the emitter reports an error. -/
theorem genErrV (v : SpnValue) (h : serializableV v = false) :
    ∃ msg, generate_recursive v = .error msg := by
  cases v with
  | nil => cases h
  | bool b => cases h
  | int n => cases h
  | float bits => cases h
  | str t => cases h
  | userinfo id =>
    have h0 : ¬(id = 0) := of_decide_eq_false h
    exact ⟨_, by rw [gen_userinfo, if_neg h0]⟩
  | func id => exact ⟨_, rfl⟩
  | array es =>
    obtain ⟨msg, hL⟩ := genErrL es h
    exact ⟨msg, by rw [gen_array, hL, except_bind_error]⟩
  | hashmap ps =>
    obtain ⟨msg, hP⟩ := genErrP ps h
    exact ⟨msg, by rw [gen_hashmap, hP, except_bind_error]⟩

theorem genErrL (es : List SpnValue) (h : serializableL es = false) :
    ∃ msg, genList es = .error msg := by
  cases es with
  | nil => cases h
  | cons e es2 =>
    cases hE : serializableV e with
    | false =>
      obtain ⟨msg, hg⟩ := genErrV e hE
      exact ⟨msg, by rw [genList_cons, hg, except_bind_error]⟩
    | true =>
      have h2 : serializableL es2 = false := by
        have : serializableL (e :: es2) = (serializableV e && serializableL es2) := rfl
        rw [this, hE] at h
        simpa using h
      obtain ⟨a, ha⟩ := genOkV e hE
      obtain ⟨msg, hg⟩ := genErrL es2 h2
      exact ⟨msg, by rw [genList_cons, ha, except_bind_ok, hg, except_bind_error]⟩

theorem genErrP (ps : List (List Nat × SpnValue)) (h : serializableP ps = false) :
    ∃ msg, genPairs ps = .error msg := by
  cases ps with
  | nil => cases h
  | cons kv ps2 =>
    obtain ⟨k, v⟩ := kv
    cases hV : serializableV v with
    | false =>
      obtain ⟨msg, hg⟩ := genErrV v hV
      exact ⟨msg, by rw [genPairs_cons, hg, except_bind_error]⟩
    | true =>
      have h2 : serializableP ps2 = false := by
        have : serializableP ((k, v) :: ps2) =
          (serializableV v && serializableP ps2) := rfl
        rw [this, hV] at h
        simpa using h
      obtain ⟨a, ha⟩ := genOkV v hV
      obtain ⟨msg, hg⟩ := genErrP ps2 h2
      exact ⟨msg, by rw [genPairs_cons, ha, except_bind_ok, hg, except_bind_error]⟩

end

/-- The token stream a map's pairs produce: each pair contributes its
key as a single String token followed by its value's tokens, in
iteration order. -/
theorem genPairs_shape (ps : List (List Nat × SpnValue))
    (tss : List (List GTok)) (h : valueTokens ps = some tss) :
    genPairs ps =
      .ok ((ps.zip tss).flatMap (fun x => .str x.1.1 :: x.2)) := by
  induction ps generalizing tss with
  | nil =>
    cases h
    rfl
  | cons kv ps2 ih =>
    obtain ⟨k, v⟩ := kv
    cases hg : generate_recursive v with
    | error msg => rw [valueTokens, hg] at h; cases h
    | ok ts =>
      cases hv2 : valueTokens ps2 with
      | none => rw [valueTokens, hg, hv2] at h; cases h
      | some tss2 =>
        rw [valueTokens, hg, hv2] at h
        cases h
        rw [genPairs_cons, hg, except_bind_ok, ih tss2 hv2, except_bind_ok]
        rfl

/-- C1. Round trip: for every document value built only from
serializable variants (with the host map's keys-unique invariant),
feeding the event stream that the Lexer scans back from the text the
Writer renders out of `generate`'s token emissions into the parse-side
builder rebuilds exactly the value with the documented Absent/ExplicitNull
collapse applied: with `parse_null` off every emitted `null` (whether it
came from Absent or from the ExplicitNull sentinel) re-parses to Absent —
so Absent is a stable fixed point, `collapse false .nil = .nil` — and
with `parse_null` on every emitted `null` re-parses to the sentinel. On
values containing neither Absent nor the sentinel the round trip is the
identity. -/
theorem parse_generate_roundtrip (v : SpnValue)
    (hser : serializableV v = true) (huniq : uniqKeysV v = true) :
    ∃ evs, eventsOf v = .ok evs ∧
      runBuilder false evs = some (collapse false v) ∧
      runBuilder true evs = some (collapse true v) := by
  obtain ⟨evs, hev⟩ := evOkV v hser
  refine ⟨evs, hev, ?_, ?_⟩
  · show (process evs ⟨.nil, [], false⟩).map ParserState.root = _
    rw [goV v evs ⟨.nil, [], false⟩ hser huniq hev]
    rfl
  · show (process evs ⟨.nil, [], true⟩).map ParserState.root = _
    rw [goV v evs ⟨.nil, [], true⟩ hser huniq hev]
    rfl

theorem parse_generate_roundtrip_witness :
    serializableV (.hashmap [([97], .array [.int 1, .nil, .userinfo 0])]) = true ∧
    uniqKeysV (.hashmap [([97], .array [.int 1, .nil, .userinfo 0])]) = true ∧
    ∃ evs,
      eventsOf (.hashmap [([97], .array [.int 1, .nil, .userinfo 0])]) = .ok evs ∧
      runBuilder false evs =
        some (collapse false (.hashmap [([97], .array [.int 1, .nil, .userinfo 0])])) ∧
      runBuilder true evs =
        some (collapse true (.hashmap [([97], .array [.int 1, .nil, .userinfo 0])])) :=
  ⟨rfl, rfl, parse_generate_roundtrip _ rfl rfl⟩

/-- C2. Explicit-null distinction: parsing the text `null` with
`parse_null` on yields the ExplicitNull sentinel, with `parse_null` off
(or no config) it yields Absent; the two results differ; and the emitter
turns either value into exactly the single `null` token, which the
Writer renders as the literal text `null`. -/
theorem explicit_null_distinction :
    (json_parse_text [110, 117, 108, 108] (some [(key_parse_null, .bool true)])).1 =
      .ok null_value ∧
    (json_parse_text [110, 117, 108, 108] (some [(key_parse_null, .bool false)])).1 =
      .ok .nil ∧
    (json_parse_text [110, 117, 108, 108] none).1 = .ok .nil ∧
    null_value ≠ SpnValue.nil ∧
    generate_recursive null_value = .ok [.null] ∧
    generate_recursive .nil = .ok [.null] :=
  ⟨rfl, rfl, rfl, fun h => SpnValue.noConfusion h, rfl, rfl⟩

/-- C5. Generate error policy: a non-serializable value makes the
emitter fail; the first failing element of an array or first failing
stored value of a map surfaces as the error of the whole container (the
walk aborts at it — the `Except` bind short-circuits past the remaining
elements); and `json_generate` forwards the error, returning it instead
of any (partial) output. -/
theorem generate_error_policy (v x : SpnValue) (xs : List SpnValue)
    (k : List Nat) (ps : List (List Nat × SpnValue)) (e : String) :
    (serializableV v = false → ∃ msg, generate_recursive v = .error msg) ∧
    (generate_recursive x = .error e →
      generate_recursive (.array (x :: xs)) = .error e ∧
      generate_recursive (.hashmap ((k, x) :: ps)) = .error e) ∧
    (generate_recursive v = .error e → json_generate v = .error e) := by
  refine ⟨genErrV v, fun hx => ⟨?_, ?_⟩, fun hv => ?_⟩
  · rw [gen_array, genList_cons, hx, except_bind_error, except_bind_error]
  · rw [gen_hashmap, genPairs_cons, hx, except_bind_error, except_bind_error]
  · show Except.bind (generate_recursive v) (fun ts => Except.ok ts) = _
    rw [hv, except_bind_error]

theorem generate_error_policy_witness :
    serializableV (.func 7) = false ∧
    (∃ msg, generate_recursive (.func 7) = .error msg) ∧
    generate_recursive (.array [.func 7, .int 1]) =
      .error "found value of unknown type" ∧
    generate_recursive (.hashmap [([107], .func 7)]) =
      .error "found value of unknown type" ∧
    json_generate (.func 7) = .error "found value of unknown type" :=
  ⟨rfl, (generate_error_policy (.func 7) (.func 7) [.int 1] [107] [] "found value of unknown type").1 rfl,
    ((generate_error_policy (.func 7) (.func 7) [.int 1] [107] [] "found value of unknown type").2.1 rfl).1,
    ((generate_error_policy (.func 7) (.func 7) [.int 1] [107] [] "found value of unknown type").2.1 rfl).2,
    (generate_error_policy (.func 7) (.func 7) [.int 1] [107] [] "found value of unknown type").2.2 rfl⟩

/-- C6. Trailing garbage: the bytes of "123 456" fail to parse — the
Lexer scans the valid value 123 (`parse_ok`), but the terminal
completeness check finds unconsumed non-whitespace input and fails, so
`json_parse` reports the Lexer's error and discards (releases) the root
— while the prefix bytes "123" alone parse fine to the integer 123. -/
theorem trailing_garbage_rejected :
    (yajlRun [49, 50, 51, 32, 52, 53, 54]).parse_ok = true ∧
    (yajlRun [49, 50, 51, 32, 52, 53, 54]).complete_ok = false ∧
    (json_parse_text [49, 50, 51, 32, 52, 53, 54] none).1 =
      .error ("error parsing JSON: " ++ "trailing garbage") ∧
    (json_parse_text [49, 50, 51, 32, 52, 53, 54] none).2 = [.int 123] ∧
    (json_parse_text [49, 50, 51] none).1 = .ok (.int 123) :=
  ⟨rfl, rfl, rfl, rfl, rfl⟩

/-- C7. Map serialization: a hashmap whose stored values all serialize
(their token streams listed by `valueTokens`) emits an open-brace, then
for every (key, value) pair in iteration order the key as a single
String token followed by the value's tokens, then a close-brace — so the
map's insertion order is preserved on re-serialization. -/
theorem generate_map_order (ps : List (List Nat × SpnValue))
    (tss : List (List GTok)) (h : valueTokens ps = some tss) :
    generate_recursive (.hashmap ps) =
      .ok (.mapOpen ::
        ((ps.zip tss).flatMap (fun x => .str x.1.1 :: x.2)) ++ [.mapClose]) := by
  rw [gen_hashmap, genPairs_shape ps tss h, except_bind_ok]

theorem generate_map_order_witness :
    valueTokens [([97], .int 1), ([98], .bool true)] =
      some [[.int 1], [.bool true]] ∧
    generate_recursive (.hashmap [([97], .int 1), ([98], .bool true)]) =
      .ok (.mapOpen ::
        (([([97], SpnValue.int 1), ([98], SpnValue.bool true)].zip
            [[GTok.int 1], [GTok.bool true]]).flatMap
          (fun x => .str x.1.1 :: x.2)) ++ [.mapClose]) :=
  ⟨rfl, generate_map_order _ _ rfl⟩

/-- A value passing the `spn_isnil` check is `nil`. -/
theorem spn_isnil_eq_nil {x : SpnValue} (h : spn_isnil x = true) :
    x = .nil := by
  cases x <;> first | rfl | exact Bool.noConfusion h

/-- Overwriting an existing key in place leaves the key sequence (the
iteration order) unchanged. -/
theorem map_overwrite_keys (ps : List (List Nat × SpnValue)) (k : List Nat)
    (v : SpnValue) :
    (ps.map (fun p => if p.1 == k then (k, v) else p)).map Prod.fst =
      ps.map Prod.fst := by
  induction ps with
  | nil => rfl
  | cons p ps ih =>
    simp only [List.map_cons, ih]
    cases hb : p.1 == k with
    | false => simp [hb]
    | true => simp [hb, beq_iff_eq.mp hb]

/-- C3. The attach operation (`set_value`, the single mutation point):
with an empty stack the value becomes the root; with an array on top the
value is appended to it; with a map on top a non-Absent (string) pending
key is required — a non-string pending key trips the assertion — the
pair is inserted (overwriting in place, or appending a fresh key, so
first-insertion order is preserved) and the pending key resets to
Absent. -/
theorem set_value_attach_spec (s : ParserState) (v : SpnValue) :
    (s.stack = [] → set_value s v = some { s with root := v }) ∧
    (∀ n rest es, s.stack = n :: rest → n.value = .array es →
      set_value s v =
        some { s with stack := ⟨n.key, .array (es ++ [v])⟩ :: rest }) ∧
    (∀ n rest ps k, s.stack = n :: rest → n.value = .hashmap ps →
      n.key = .str k →
      set_value s v =
        some { s with
          stack := ⟨.nil, .hashmap (spn_hashmap_set ps k v)⟩ :: rest }) ∧
    (∀ n rest ps, s.stack = n :: rest → n.value = .hashmap ps →
      spn_isstring n.key = false → set_value s v = none) ∧
    (∀ ps k, spn_isnil v = false → ps.any (fun p => p.1 == k) = false →
      spn_hashmap_set ps k v = ps ++ [(k, v)]) ∧
    (∀ ps k, spn_isnil v = false → ps.any (fun p => p.1 == k) = true →
      (spn_hashmap_set ps k v).map Prod.fst = ps.map Prod.fst) := by
  refine ⟨?_, ?_, ?_, ?_, ?_, ?_⟩
  · intro h
    unfold set_value
    rw [h]
  · intro n rest es hs hv
    obtain ⟨nk, nv⟩ := n
    cases hv
    unfold set_value
    rw [hs]
    rfl
  · intro n rest ps k hs hv hk
    obtain ⟨nk, nv⟩ := n
    cases hv
    cases hk
    unfold set_value
    rw [hs]
  · intro n rest ps hs hv hk
    obtain ⟨nk, nv⟩ := n
    cases hv
    unfold set_value
    rw [hs]
    cases nk <;> first | rfl | exact Bool.noConfusion hk
  · intro ps k hnil hany
    exact spn_hashmap_set_fresh_notnil ps k v hany hnil
  · intro ps k hnil hany
    unfold spn_hashmap_set
    rw [hnil, hany]
    exact map_overwrite_keys ps k v

theorem set_value_attach_spec_witness :
    set_value ⟨.nil, [], false⟩ (.int 9) = some ⟨.int 9, [], false⟩ ∧
    set_value ⟨.nil, [⟨.nil, .array [.int 1]⟩], false⟩ (.int 9) =
      some ⟨.nil, [⟨.nil, .array [.int 1, .int 9]⟩], false⟩ ∧
    set_value ⟨.nil, [⟨.str [97], .hashmap []⟩], false⟩ (.int 9) =
      some ⟨.nil, [⟨.nil, .hashmap (spn_hashmap_set [] [97] (.int 9))⟩], false⟩ ∧
    set_value ⟨.nil, [⟨.nil, .hashmap []⟩], false⟩ (.int 9) = none ∧
    spn_hashmap_set [([98], .int 2)] [97] (.int 9) =
      [([98], .int 2), ([97], .int 9)] ∧
    (spn_hashmap_set [([97], .int 1), ([98], .int 2)] [97] (.int 9)).map Prod.fst =
      [([97], SpnValue.int 1), ([98], SpnValue.int 2)].map Prod.fst :=
  ⟨(set_value_attach_spec ⟨.nil, [], false⟩ (.int 9)).1 rfl,
   (set_value_attach_spec ⟨.nil, [⟨.nil, .array [.int 1]⟩], false⟩ (.int 9)).2.1
     ⟨.nil, .array [.int 1]⟩ [] [.int 1] rfl rfl,
   (set_value_attach_spec ⟨.nil, [⟨.str [97], .hashmap []⟩], false⟩ (.int 9)).2.2.1
     ⟨.str [97], .hashmap []⟩ [] [] [97] rfl rfl rfl,
   (set_value_attach_spec ⟨.nil, [⟨.nil, .hashmap []⟩], false⟩ (.int 9)).2.2.2.1
     ⟨.nil, .hashmap []⟩ [] [] rfl rfl rfl,
   (set_value_attach_spec ⟨.nil, [], false⟩ (.int 9)).2.2.2.2.1
     [([98], .int 2)] [97] rfl rfl,
   (set_value_attach_spec ⟨.nil, [], false⟩ (.int 9)).2.2.2.2.2
     [([97], .int 1), ([98], .int 2)] [97] rfl rfl⟩

/-- C4. Error teardown: whenever either Lexer status fails (syntax error
or trailing garbage), `json_parse` returns the error built from the
Lexer's human-readable message ("error parsing JSON: " prefixed, with
the Lexer's position context inside the message), never the root value —
the root is released, and teardown releases every still-stacked frame's
key and value (`state_free`). -/
theorem json_parse_error_teardown (L : LexRun) (mode : Bool)
    (st : ParserState)
    (hp : process L.evs { state_init with explicit_null := mode } = some st)
    (herr : L.parse_ok = false ∨ L.complete_ok = false) :
    json_parse_model L mode =
      (.error ("error parsing JSON: " ++ L.errmsg),
        st.root :: state_free st) := by
  obtain ⟨evs, po, co, msg⟩ := L
  unfold json_parse_model
  rw [hp]
  cases po with
  | false => rfl
  | true =>
    cases co with
    | false => rfl
    | true => rcases herr with h | h <;> exact Bool.noConfusion h

theorem json_parse_error_teardown_witness :
    process [.startArr, .int 1] { state_init with explicit_null := false } =
      some ⟨.nil, [⟨.nil, .array [.int 1]⟩], false⟩ ∧
    (((false : Bool) = false) ∨ ((true : Bool) = false)) ∧
    json_parse_model ⟨[.startArr, .int 1], false, true, "premature EOF"⟩ false =
      (.error ("error parsing JSON: " ++ "premature EOF"),
        SpnValue.nil :: state_free ⟨.nil, [⟨.nil, .array [.int 1]⟩], false⟩) :=
  ⟨rfl, Or.inl rfl,
    json_parse_error_teardown ⟨[.startArr, .int 1], false, true, "premature EOF"⟩
      false ⟨.nil, [⟨.nil, .array [.int 1]⟩], false⟩ rfl (Or.inl rfl)⟩

/-- C8. Pending-key discipline: a freshly pushed frame has an Absent
pending key; a frame can only be popped (its end event processed) with
an Absent pending key; attaching a value into a map frame leaves the new
top frame's pending key Absent; and a key event requires the top frame's
pending key to be Absent and leaves exactly that key pending — so a
pending key is non-Absent only between a key event and the completion of
the next child value of that map. -/
theorem pending_key_invariant (s s' : ParserState) (c v : SpnValue)
    (k : List Nat) :
    (state_push s c = some s' → s'.stack = ⟨.nil, c⟩ :: s.stack) ∧
    (∀ vp sp, state_pop s = some (vp, sp) →
      ∃ n rest, s.stack = n :: rest ∧ n.key = .nil) ∧
    (∀ n rest ps, s.stack = n :: rest → n.value = .hashmap ps →
      set_value s v = some s' →
      ∃ n2 rest2, s'.stack = n2 :: rest2 ∧ n2.key = .nil) ∧
    (∀ r, cb_map_key s k = some r →
      (∃ n rest, s.stack = n :: rest ∧ n.key = .nil) ∧
      (∃ n2 rest2, r.1.stack = n2 :: rest2 ∧ n2.key = .str k)) := by
  obtain ⟨root, stk, m⟩ := s
  refine ⟨?_, ?_, ?_, ?_⟩
  · intro h
    unfold state_push at h
    split at h
    · injection h with h2
      subst h2
      rfl
    · cases h
  · intro vp sp h
    cases stk with
    | nil => exact Option.noConfusion h
    | cons n rest =>
      obtain ⟨nk, nv⟩ := n
      cases nk
      case nil => exact ⟨⟨.nil, nv⟩, rest, rfl, rfl⟩
      all_goals exact Option.noConfusion h
  · intro n rest ps hs hv h
    subst hs
    obtain ⟨nk, nv⟩ := n
    cases hv
    cases nk
    case str k2 =>
      injection h with h2
      subst h2
      exact ⟨_, _, rfl, rfl⟩
    all_goals exact Option.noConfusion h
  · intro r h
    cases stk with
    | nil => exact Option.noConfusion h
    | cons n rest =>
      obtain ⟨nk, nv⟩ := n
      cases nk
      case nil =>
        injection h with h2
        refine ⟨⟨⟨.nil, nv⟩, rest, rfl, rfl⟩, ?_⟩
        rw [← h2]
        exact ⟨_, _, rfl, rfl⟩
      all_goals exact Option.noConfusion h

theorem pending_key_invariant_witness :
    (ParserState.mk .nil [⟨.nil, .hashmap []⟩] false).stack =
      ⟨.nil, .hashmap []⟩ :: (ParserState.mk .nil [] false).stack ∧
    (∃ n rest, (ParserState.mk .nil [⟨.nil, .array [.int 1]⟩] false).stack =
      n :: rest ∧ n.key = .nil) ∧
    (∃ n2 rest2,
      (ParserState.mk .nil [⟨.nil, .hashmap [([97], .int 1)]⟩] false).stack =
        n2 :: rest2 ∧ n2.key = .nil) ∧
    ((∃ n rest, (ParserState.mk .nil [⟨.nil, .hashmap []⟩] false).stack =
        n :: rest ∧ n.key = .nil) ∧
      (∃ n2 rest2,
        ((ParserState.mk .nil [⟨.str [97], .hashmap []⟩] false, (1 : Int)) :
          ParserState × Int).1.stack = n2 :: rest2 ∧ n2.key = .str [97])) :=
  ⟨(pending_key_invariant ⟨.nil, [], false⟩
      ⟨.nil, [⟨.nil, .hashmap []⟩], false⟩ (.hashmap []) .nil [97]).1 rfl,
   (pending_key_invariant ⟨.nil, [⟨.nil, .array [.int 1]⟩], false⟩
      ⟨.nil, [], false⟩ (.hashmap []) .nil [97]).2.1
      (.array [.int 1]) ⟨.nil, [], false⟩ rfl,
   (pending_key_invariant ⟨.nil, [⟨.str [97], .hashmap []⟩], false⟩
      ⟨.nil, [⟨.nil, .hashmap [([97], .int 1)]⟩], false⟩ (.hashmap [])
      (.int 1) [97]).2.2.1 ⟨.str [97], .hashmap []⟩ [] [] rfl rfl rfl,
   (pending_key_invariant ⟨.nil, [⟨.nil, .hashmap []⟩], false⟩
      ⟨.nil, [], false⟩ (.hashmap []) .nil [97]).2.2.2
      (⟨.nil, [⟨.str [97], .hashmap []⟩], false⟩, 1) rfl⟩

/-- C9. Option robustness: both config translators read only their
recognized keys ("comment"/"parse_null" on the parse side,
"beautify"/"indent"/"escape_slash" on the generate side), so
unrecognized keys are silently ignored; and a recognized key holding a
value of the wrong type (non-boolean where a boolean is expected,
non-string for "indent") is silently ignored, leaving the default
setting in effect. -/
theorem options_ignored (cfg cfg2 : List (List Nat × SpnValue)) :
    (spn_hashmap_get_strkey cfg key_comment =
        spn_hashmap_get_strkey cfg2 key_comment →
      spn_hashmap_get_strkey cfg key_parse_null =
        spn_hashmap_get_strkey cfg2 key_parse_null →
      config_parser_side cfg = config_parser_side cfg2) ∧
    (spn_isbool (spn_hashmap_get_strkey cfg key_comment) = false →
      (config_parser_side cfg).1.allow_comments = false) ∧
    (spn_isbool (spn_hashmap_get_strkey cfg key_parse_null) = false →
      (config_parser_side cfg).2 = false) ∧
    (spn_hashmap_get_strkey cfg key_beautify =
        spn_hashmap_get_strkey cfg2 key_beautify →
      spn_hashmap_get_strkey cfg key_indent =
        spn_hashmap_get_strkey cfg2 key_indent →
      spn_hashmap_get_strkey cfg key_escape_slash =
        spn_hashmap_get_strkey cfg2 key_escape_slash →
      config_gen cfg = config_gen cfg2) ∧
    (spn_isbool (spn_hashmap_get_strkey cfg key_beautify) = false →
      (config_gen cfg).beautify = false) ∧
    (spn_isstring (spn_hashmap_get_strkey cfg key_indent) = false →
      (config_gen cfg).indent_string = yajl_gen_default_opts.indent_string) ∧
    (spn_isbool (spn_hashmap_get_strkey cfg key_escape_slash) = false →
      (config_gen cfg).escape_solidus = false) := by
  refine ⟨?_, ?_, ?_, ?_, ?_, ?_, ?_⟩
  · intro h1 h2
    unfold config_parser_side parser_set_bool_option state_set_bool_option
    rw [h1, h2]
  · intro h
    unfold config_parser_side parser_set_bool_option
    rw [h]
    rfl
  · intro h
    unfold config_parser_side state_set_bool_option
    rw [h]
    rfl
  · intro h1 h2 h3
    unfold config_gen gen_set_bool_option gen_set_string_option
    rw [h1, h2, h3]
  · intro h
    unfold config_gen gen_set_bool_option
    rw [h]
    rfl
  · intro h
    unfold config_gen gen_set_string_option
    rw [h]
    rfl
  · intro h
    unfold config_gen gen_set_bool_option
    rw [h]
    rfl

theorem options_ignored_witness :
    spn_hashmap_get_strkey [([120], .int 5), (key_comment, .bool true)] key_comment =
      spn_hashmap_get_strkey [(key_comment, .bool true), ([122], .str [1])] key_comment ∧
    spn_hashmap_get_strkey [([120], .int 5), (key_comment, .bool true)] key_parse_null =
      spn_hashmap_get_strkey [(key_comment, .bool true), ([122], .str [1])] key_parse_null ∧
    config_parser_side [([120], .int 5), (key_comment, .bool true)] =
      config_parser_side [(key_comment, .bool true), ([122], .str [1])] ∧
    spn_isbool (spn_hashmap_get_strkey [(key_comment, .str [121])] key_comment) = false ∧
    (config_parser_side [(key_comment, .str [121])]).1.allow_comments = false ∧
    spn_isbool (spn_hashmap_get_strkey [(key_parse_null, .int 1)] key_parse_null) = false ∧
    (config_parser_side [(key_parse_null, .int 1)]).2 = false ∧
    spn_isbool (spn_hashmap_get_strkey [(key_beautify, .str [])] key_beautify) = false ∧
    (config_gen [(key_beautify, .str [])]).beautify = false ∧
    spn_isstring (spn_hashmap_get_strkey [(key_indent, .int 2)] key_indent) = false ∧
    (config_gen [(key_indent, .int 2)]).indent_string =
      yajl_gen_default_opts.indent_string ∧
    spn_isbool (spn_hashmap_get_strkey [(key_escape_slash, .str [])] key_escape_slash) = false ∧
    (config_gen [(key_escape_slash, .str [])]).escape_solidus = false :=
  ⟨rfl, rfl,
   (options_ignored [([120], .int 5), (key_comment, .bool true)]
     [(key_comment, .bool true), ([122], .str [1])]).1 rfl rfl,
   rfl, (options_ignored [(key_comment, .str [121])] []).2.1 rfl,
   rfl, (options_ignored [(key_parse_null, .int 1)] []).2.2.1 rfl,
   rfl, (options_ignored [(key_beautify, .str [])] []).2.2.2.2.1 rfl,
   rfl, (options_ignored [(key_indent, .int 2)] []).2.2.2.2.2.1 rfl,
   rfl, (options_ignored [(key_escape_slash, .str [])] []).2.2.2.2.2.2 rfl⟩

/-- C10. Every registered builder callback reports success (returns 1)
for every event it completes — the builder never signals failure back to
the Lexer (the `yajl_number` slot is NULL, so integers and doubles
arrive through their own callbacks) — hence any parse failure originates
from the Lexer's own status, never from the tree-building step. -/
theorem callbacks_always_succeed (s : ParserState) (b : Bool) (n : Int)
    (bits : Nat) (t k : List Nat) :
    Option.all (fun r => r.2 == 1) (parser_callbacks.yajl_null s) = true ∧
    Option.all (fun r => r.2 == 1) (parser_callbacks.yajl_boolean s b) = true ∧
    Option.all (fun r => r.2 == 1) (parser_callbacks.yajl_integer s n) = true ∧
    Option.all (fun r => r.2 == 1) (parser_callbacks.yajl_double s bits) = true ∧
    Option.all (fun r => r.2 == 1) (parser_callbacks.yajl_string s t) = true ∧
    Option.all (fun r => r.2 == 1) (parser_callbacks.yajl_start_map s) = true ∧
    Option.all (fun r => r.2 == 1) (parser_callbacks.yajl_map_key s k) = true ∧
    Option.all (fun r => r.2 == 1) (parser_callbacks.yajl_end_map s) = true ∧
    Option.all (fun r => r.2 == 1) (parser_callbacks.yajl_start_array s) = true ∧
    Option.all (fun r => r.2 == 1) (parser_callbacks.yajl_end_array s) = true ∧
    parser_callbacks.yajl_number = none := by
  obtain ⟨root, stk, m⟩ := s
  refine ⟨?_, ?_, ?_, ?_, ?_, ?_, ?_, ?_, ?_, ?_, rfl⟩
  · show Option.all _ (cb_null ⟨root, stk, m⟩) = true
    unfold cb_null
    cases set_value ⟨root, stk, m⟩
      (if (ParserState.mk root stk m).explicit_null then null_value else .nil) <;> rfl
  · show Option.all _ (cb_boolean ⟨root, stk, m⟩ b) = true
    unfold cb_boolean
    cases set_value ⟨root, stk, m⟩ (.bool b) <;> rfl
  · show Option.all _ (cb_integer ⟨root, stk, m⟩ n) = true
    unfold cb_integer
    cases set_value ⟨root, stk, m⟩ (.int n) <;> rfl
  · show Option.all _ (cb_double ⟨root, stk, m⟩ bits) = true
    unfold cb_double
    cases set_value ⟨root, stk, m⟩ (.float bits) <;> rfl
  · show Option.all _ (cb_string ⟨root, stk, m⟩ t) = true
    unfold cb_string
    cases set_value ⟨root, stk, m⟩ (.str t) <;> rfl
  · show Option.all _ (cb_start_map ⟨root, stk, m⟩) = true
    unfold cb_start_map
    cases state_push ⟨root, stk, m⟩ (.hashmap []) <;> rfl
  · show Option.all _ (cb_map_key ⟨root, stk, m⟩ k) = true
    cases stk with
    | nil => rfl
    | cons fr rest =>
      obtain ⟨nk, nv⟩ := fr
      cases nk <;> rfl
  · show Option.all _ (cb_end_map ⟨root, stk, m⟩) = true
    unfold cb_end_map
    cases state_pop ⟨root, stk, m⟩ with
    | none => rfl
    | some r =>
      obtain ⟨vp, sp⟩ := r
      show Option.all _ ((set_value sp vp).map (fun u => (u, (1 : Int)))) = true
      cases set_value sp vp <;> rfl
  · show Option.all _ (cb_start_array ⟨root, stk, m⟩) = true
    unfold cb_start_array
    cases state_push ⟨root, stk, m⟩ (.array []) <;> rfl
  · show Option.all _ (cb_end_array ⟨root, stk, m⟩) = true
    unfold cb_end_array
    cases state_pop ⟨root, stk, m⟩ with
    | none => rfl
    | some r =>
      obtain ⟨vp, sp⟩ := r
      show Option.all _ ((set_value sp vp).map (fun u => (u, (1 : Int)))) = true
      cases set_value sp vp <;> rfl
